import Mathlib

/-!
Verification development for the Termix repository.

Part I models the credential-at-rest subsystem of the database backend
(`encryptData`, `decryptData`, `getEncryptionKey`, and the `saveHostConfig` /
`getHosts` socket handlers).  Part II models the SSH session relay
(`src/backend/ssh.cjs`): the `connectToHost`, `resize`, stream-`close` and
connection-`error` handlers and the outgoing write coalescing loop.

Library calls (Node's `crypto` AES-256-GCM, `scryptSync`, `JSON.stringify` /
`JSON.parse`, `Buffer` hex codecs) are modelled symbolically: each is replaced
by an executable Lean function that keeps exactly the interface contract the
surrounding repository code relies on (authenticated encryption that is
injective in key/iv/ciphertext, an injective key-derivation string, an
invertible serialization, an invertible `:`-free hex rendering).  Everything
written by the repository itself is translated line by line.
-/

/-! ### Generic character-list utilities -/

/-- JavaScript `String.prototype.split(sep)` for a single-character separator,
on the character list of the string.  `splitOnChar sep l` always returns at
least one (possibly empty) component. -/
def splitOnChar (sep : Char) : List Char → List (List Char)
  | [] => [[]]
  | c :: rest =>
    if c = sep then [] :: splitOnChar sep rest
    else
      match splitOnChar sep rest with
      | [] => [[c]]
      | h :: t => (c :: h) :: t

theorem splitOnChar_ne_nil (sep : Char) (l : List Char) : splitOnChar sep l ≠ [] := by
  induction l with
  | nil => simp [splitOnChar]
  | cons c rest ih =>
    simp only [splitOnChar]
    split
    · simp
    · match h : splitOnChar sep rest with
      | [] => simp
      | a :: t => simp

/-- Splitting a separator-free list yields the list itself as the single
component. -/
theorem splitOnChar_of_not_mem (sep : Char) (a : List Char) (ha : ∀ c ∈ a, c ≠ sep) :
    splitOnChar sep a = [a] := by
  induction a with
  | nil => rfl
  | cons c rest ih =>
    have hc : c ≠ sep := ha c (by simp)
    have hrest : splitOnChar sep rest = [rest] := ih (fun x hx => ha x (by simp [hx]))
    simp [splitOnChar, hc, hrest]

/-- Splitting `a ++ sep :: r` when `a` is separator-free peels off `a` as the
first component. -/
theorem splitOnChar_append (sep : Char) (a r : List Char) (ha : ∀ c ∈ a, c ≠ sep) :
    splitOnChar sep (a ++ sep :: r) = a :: splitOnChar sep r := by
  induction a with
  | nil => simp [splitOnChar]
  | cons c rest ih =>
    have hc : c ≠ sep := ha c (by simp)
    have hrest := ih (fun x hx => ha x (by simp [hx]))
    simp [splitOnChar, hc, hrest]

/-! ### An invertible field serializer

`JSON.stringify` / `JSON.parse` on the fixed record shape encrypted by the
backend are modelled by an explicit injective serializer with a total parser
that inverts it.  A string field is escaped so that `#` can end it; `\` is the
escape character. -/

/-- Serialize one raw field, escaping `\` and `#`, and terminate with `#`. -/
def encField : List Char → List Char
  | [] => ['#']
  | c :: rest => if c = '\\' ∨ c = '#' then '\\' :: c :: encField rest else c :: encField rest

/-- Parse one field produced by `encField`, returning the field and the rest of
the input. -/
def decField : List Char → Option (List Char × List Char)
  | [] => none
  | c :: rest =>
    if c = '\\' then
      match rest with
      | [] => none
      | d :: rest₂ =>
        match decField rest₂ with
        | some (f, r) => some (d :: f, r)
        | none => none
    else if c = '#' then some ([], rest)
    else
      match decField rest with
      | some (f, r) => some (c :: f, r)
      | none => none

theorem decField_hash (r : List Char) : decField ('#' :: r) = some ([], r) := by
  rw [decField.eq_def]
  simp [show ('#' : Char) ≠ '\\' from by decide]

theorem decField_esc (d : Char) (rest₂ : List Char) :
    decField ('\\' :: d :: rest₂) = (match decField rest₂ with
      | some (f, r) => some (d :: f, r)
      | none => none) := by
  rw [decField.eq_def]
  simp

theorem decField_other (c : Char) (rest : List Char) (h1 : c ≠ '\\') (h2 : c ≠ '#') :
    decField (c :: rest) = (match decField rest with
      | some (f, r) => some (c :: f, r)
      | none => none) := by
  rw [decField.eq_def]
  simp [h1, h2]

theorem decField_encField (s r : List Char) : decField (encField s ++ r) = some (s, r) := by
  induction s with
  | nil => simpa [encField] using decField_hash r
  | cons c rest ih =>
    by_cases h : c = '\\' ∨ c = '#'
    · simp [encField, h, decField_esc, ih]
    · push_neg at h
      simp [encField, h.1, h.2, decField_other _ _ h.1 h.2, ih]

/-! ### Decimal digits for the numeric field -/

/-- Little-endian decimal digits of a natural number (empty for `0`). -/
def natDigitsLE : Nat → List Nat
  | 0 => []
  | n + 1 => (n + 1) % 10 :: natDigitsLE ((n + 1) / 10)
decreasing_by exact Nat.div_lt_self (Nat.succ_pos n) (by decide)

/-- Value of a little-endian decimal digit list. -/
def digitsValLE : List Nat → Nat
  | [] => 0
  | d :: rest => d + 10 * digitsValLE rest

theorem digitsValLE_natDigitsLE (n : Nat) : digitsValLE (natDigitsLE n) = n := by
  induction n using Nat.strong_induction_on with
  | _ n ih =>
    match n with
    | 0 => simp [natDigitsLE, digitsValLE]
    | m + 1 =>
      rw [natDigitsLE, digitsValLE, ih ((m + 1) / 10) (Nat.div_lt_self (Nat.succ_pos m) (by decide))]
      omega

theorem natDigitsLE_lt (n : Nat) : ∀ d ∈ natDigitsLE n, d < 10 := by
  induction n using Nat.strong_induction_on with
  | _ n ih =>
    match n with
    | 0 => simp [natDigitsLE]
    | m + 1 =>
      rw [natDigitsLE]
      intro d hd
      rcases List.mem_cons.mp hd with h | h
      · omega
      · exact ih ((m + 1) / 10) (Nat.div_lt_self (Nat.succ_pos m) (by decide)) d h

/-- Digit value to digit character, `0` ↦ `'0'` … `9` ↦ `'9'`. -/
def digitChar (d : Nat) : Char := Char.ofNat (48 + d)

/-- Digit character back to its value. -/
def digitVal (c : Char) : Nat := c.toNat - 48

theorem digitVal_digitChar : ∀ d, d < 10 → digitVal (digitChar d) = d := by decide

theorem digitChar_ne : ∀ d, d < 10 → digitChar d ≠ '\\' ∧ digitChar d ≠ '#' := by decide

/-! ### The serialized plaintext payload

`saveHostConfig` builds a `cleanConfig` object with exactly these fields and
passes it to `encryptData`, which serializes it with `JSON.stringify`.  Fields
that JavaScript leaves `undefined`/`null` are `Option.none` here. -/

structure HostConfigPlain where
  name : Option String
  folder : Option String
  ip : String
  user : String
  port : Nat
  password : Option String
  rsaKey : Option String
deriving DecidableEq, Repr

/-- Serialize one string field. -/
def encStrF (s : String) : List Char := encField s.data

/-- Parse one string field. -/
def decStrF (l : List Char) : Option (String × List Char) :=
  match decField l with
  | some (f, r) => some (String.mk f, r)
  | none => none

/-- Serialize one optional string field (`'0'` = absent, `'1'` = present). -/
def encOptStrF : Option String → List Char
  | none => ['0']
  | some s => '1' :: encStrF s

/-- Parse one optional string field. -/
def decOptStrF (l : List Char) : Option (Option String × List Char) :=
  match l with
  | [] => none
  | c :: rest =>
    if c = '1' then
      match decStrF rest with
      | some (s, r) => some (some s, r)
      | none => none
    else if c = '0' then some (none, rest)
    else none

/-- Serialize one numeric field as decimal digits terminated by `#`. -/
def encNatF (n : Nat) : List Char := (natDigitsLE n).map digitChar ++ ['#']

/-- Parse one numeric field. -/
def decNatF (l : List Char) : Option (Nat × List Char) :=
  match decField l with
  | some (f, r) => some (digitsValLE (f.map digitVal), r)
  | none => none

theorem decStrF_encStrF (s : String) (r : List Char) :
    decStrF (encStrF s ++ r) = some (s, r) := by
  simp [decStrF, encStrF, decField_encField]

theorem decOptStrF_encOptStrF (o : Option String) (r : List Char) :
    decOptStrF (encOptStrF o ++ r) = some (o, r) := by
  cases o with
  | none => simp [encOptStrF, decOptStrF, show ('0' : Char) ≠ '1' from by decide]
  | some s => simp [encOptStrF, decOptStrF, decStrF_encStrF]

theorem decField_digits (f r : List Char) (hf : ∀ c ∈ f, c ≠ '\\' ∧ c ≠ '#') :
    decField (f ++ '#' :: r) = some (f, r) := by
  induction f with
  | nil => simpa using decField_hash r
  | cons c rest ih =>
    have hc := hf c (by simp)
    have hrest := ih (fun x hx => hf x (by simp [hx]))
    simp [decField_other _ _ hc.1 hc.2, hrest]

theorem decNatF_encNatF (n : Nat) (r : List Char) :
    decNatF (encNatF n ++ r) = some (n, r) := by
  have hd : ∀ c ∈ (natDigitsLE n).map digitChar, c ≠ '\\' ∧ c ≠ '#' := by
    intro c hc
    rcases List.mem_map.mp hc with ⟨d, hd, rfl⟩
    exact digitChar_ne d (natDigitsLE_lt n d hd)
  have hmap : ((natDigitsLE n).map digitChar).map digitVal = natDigitsLE n := by
    rw [List.map_map]
    refine List.map_congr_left ?_ |>.trans (List.map_id _)
    intro d hd
    exact digitVal_digitChar d (natDigitsLE_lt n d hd)
  simp [decNatF, encNatF, decField_digits _ _ hd, hmap, digitsValLE_natDigitsLE]

/-- Model of `JSON.stringify` restricted to the record shape the backend
encrypts: an injective serialization of `HostConfigPlain`. -/
def jsonStringify (h : HostConfigPlain) : String :=
  String.mk (encOptStrF h.name ++ encOptStrF h.folder ++ encStrF h.ip ++ encStrF h.user ++
    encNatF h.port ++ encOptStrF h.password ++ encOptStrF h.rsaKey)

/-- Model of `JSON.parse` on the same record shape: the inverse of
`jsonStringify`, `none` on any input that is not a serialized record. -/
def jsonParse (s : String) : Option HostConfigPlain :=
  match decOptStrF s.data with
  | none => none
  | some (name, r₁) =>
    match decOptStrF r₁ with
    | none => none
    | some (folder, r₂) =>
      match decStrF r₂ with
      | none => none
      | some (ip, r₃) =>
        match decStrF r₃ with
        | none => none
        | some (user, r₄) =>
          match decNatF r₄ with
          | none => none
          | some (port, r₅) =>
            match decOptStrF r₅ with
            | none => none
            | some (password, r₆) =>
              match decOptStrF r₆ with
              | none => none
              | some (rsaKey, r₇) =>
                if r₇ = [] then some ⟨name, folder, ip, user, port, password, rsaKey⟩ else none

theorem jsonParse_jsonStringify (h : HostConfigPlain) : jsonParse (jsonStringify h) = some h := by
  simp [jsonParse, jsonStringify, List.append_assoc, decOptStrF_encOptStrF, decStrF_encStrF,
    decNatF_encNatF]
  rw [show encOptStrF h.rsaKey = encOptStrF h.rsaKey ++ [] from (List.append_nil _).symm,
    decOptStrF_encOptStrF]
  simp

/-! ### Hex rendering of byte buffers

`encryptData` renders the iv, ciphertext and auth tag with
`Buffer.toString('hex')` and `decryptData` reads them back with
`Buffer.from(_, 'hex')`.  The model renders each character of a string as a
fixed-width block of eight lowercase hex digits of its code point: injective,
invertible, and drawn from an alphabet that contains neither `:` (the record
separator) nor `g` (the tag separator). -/

/-- One lowercase hex digit, `0` ↦ `'0'` … `15` ↦ `'f'`. -/
def hexDigitChar (m : Nat) : Char := Char.ofNat (if m < 10 then 48 + m else 87 + m)

/-- Value of one lowercase hex digit character. -/
def hexCharVal (c : Char) : Nat := if c.toNat < 58 then c.toNat - 48 else c.toNat - 87

theorem hexCharVal_hexDigitChar : ∀ m, m < 16 → hexCharVal (hexDigitChar m) = m := by decide

theorem hexDigitChar_ne_colon : ∀ m, m < 16 → hexDigitChar m ≠ ':' := by decide

/-- The eight-hex-digit block of one character (little-endian digit order). -/
def charToHex (c : Char) : List Char :=
  [hexDigitChar (c.toNat % 16), hexDigitChar (c.toNat / 16 % 16),
   hexDigitChar (c.toNat / 256 % 16), hexDigitChar (c.toNat / 4096 % 16),
   hexDigitChar (c.toNat / 65536 % 16), hexDigitChar (c.toNat / 1048576 % 16),
   hexDigitChar (c.toNat / 16777216 % 16), hexDigitChar (c.toNat / 268435456 % 16)]

/-- Hex rendering of a whole string. -/
def strToHex (s : String) : List Char := (s.data.map charToHex).flatten

/-- Invert the hex rendering, eight digits at a time; `none` if the block
structure is broken. -/
def hexToChars : List Char → Option (List Char)
  | [] => some []
  | c₀ :: c₁ :: c₂ :: c₃ :: c₄ :: c₅ :: c₆ :: c₇ :: rest =>
    match hexToChars rest with
    | some l => some (Char.ofNat (hexCharVal c₀ + 16 * hexCharVal c₁ + 256 * hexCharVal c₂ +
        4096 * hexCharVal c₃ + 65536 * hexCharVal c₄ + 1048576 * hexCharVal c₅ +
        16777216 * hexCharVal c₆ + 268435456 * hexCharVal c₇) :: l)
    | none => none
  | _ => none

theorem char_toNat_lt (c : Char) : c.toNat < 4294967296 := by
  have := c.val.toNat_lt
  simp only [Char.toNat]
  omega

theorem hexToChars_block (c : Char) (rest : List Char) :
    hexToChars (charToHex c ++ rest) = (hexToChars rest).map (fun l => c :: l) := by
  have hv : ∀ k, hexCharVal (hexDigitChar (c.toNat / k % 16)) = c.toNat / k % 16 :=
    fun k => hexCharVal_hexDigitChar _ (Nat.mod_lt _ (by decide))
  have hlt := char_toNat_lt c
  have hsum : hexCharVal (hexDigitChar (c.toNat % 16)) + 16 * hexCharVal (hexDigitChar (c.toNat / 16 % 16)) +
      256 * hexCharVal (hexDigitChar (c.toNat / 256 % 16)) + 4096 * hexCharVal (hexDigitChar (c.toNat / 4096 % 16)) +
      65536 * hexCharVal (hexDigitChar (c.toNat / 65536 % 16)) + 1048576 * hexCharVal (hexDigitChar (c.toNat / 1048576 % 16)) +
      16777216 * hexCharVal (hexDigitChar (c.toNat / 16777216 % 16)) + 268435456 * hexCharVal (hexDigitChar (c.toNat / 268435456 % 16)) = c.toNat := by
    rw [hexCharVal_hexDigitChar _ (Nat.mod_lt _ (by decide)), hv 16, hv 256, hv 4096, hv 65536,
      hv 1048576, hv 16777216, hv 268435456]
    omega
  simp only [charToHex, List.cons_append, List.nil_append, hexToChars, hsum,
    Char.ofNat_toNat]
  cases h : hexToChars rest <;> simp [h]

theorem hexToChars_strToHex (s : String) : hexToChars (strToHex s) = some s.data := by
  suffices h : ∀ l : List Char, hexToChars ((l.map charToHex).flatten) = some l by
    simpa [strToHex] using h s.data
  intro l
  induction l with
  | nil => rfl
  | cons c rest ih => simp [hexToChars_block, ih]

theorem strToHex_inj (s₁ s₂ : String) (h : strToHex s₁ = strToHex s₂) : s₁ = s₂ := by
  have h₁ := hexToChars_strToHex s₁
  have h₂ := hexToChars_strToHex s₂
  rw [h, h₂] at h₁
  exact congrArg String.mk (Option.some.inj h₁).symm

theorem mem_charToHex_ne_colon (c x : Char) (hx : x ∈ charToHex c) : x ≠ ':' := by
  simp only [charToHex, List.mem_cons, List.not_mem_nil, or_false] at hx
  rcases hx with rfl | rfl | rfl | rfl | rfl | rfl | rfl | rfl <;>
    exact hexDigitChar_ne_colon _ (Nat.mod_lt _ (by decide))

theorem mem_strToHex_ne_colon (s : String) (x : Char) (hx : x ∈ strToHex s) : x ≠ ':' := by
  simp only [strToHex, List.mem_flatten, List.mem_map] at hx
  obtain ⟨blk, ⟨c, _, rfl⟩, hxblk⟩ := hx
  exact mem_charToHex_ne_colon c x hxblk

/-! ### The Secret Codec (`database` backend, `getEncryptionKey` /
`encryptData` / `decryptData`)

`getEncryptionKey` derives a 32-byte key via
`crypto.scryptSync(userId + "-" + sessionToken, salt, 32)`; the model keeps
the derivation input string itself as the key, treating scrypt as an ideal
(collision-free) KDF.  AES-256-GCM is modelled as an ideal authenticated
cipher: the ciphertext renders the serialized plaintext, and the auth tag is
determined injectively by (key, iv, ciphertext), so a tag comparison succeeds
exactly when key, iv and ciphertext all match. -/

/-- Model of `getEncryptionKey(userId, sessionToken)`: the scrypt input string
`userId + "-" + sessionToken` stands for the derived key. -/
def getEncryptionKey (userId sessionToken : String) : String :=
  userId ++ "-" ++ sessionToken

/-- Hex rendering of the 16 random iv bytes: 32 hex digits. -/
def ivHexOf (iv : Nat) : List Char :=
  (List.range 32).map (fun k => hexDigitChar (iv / 16 ^ k % 16))

theorem mem_ivHexOf_ne_colon (iv : Nat) (x : Char) (hx : x ∈ ivHexOf iv) : x ≠ ':' := by
  simp only [ivHexOf, List.mem_map, List.mem_range] at hx
  obtain ⟨k, _, rfl⟩ := hx
  exact hexDigitChar_ne_colon _ (Nat.mod_lt _ (by decide))

/-- The GCM authentication tag of the model cipher: determined by the key, the
rendered iv and the rendered ciphertext, injectively in each component. -/
def mkTag (key : String) (ivHex ctHex : List Char) : List Char :=
  ivHex ++ 'g' :: ctHex ++ 'g' :: strToHex key

theorem mkTag_inj_key (key₁ key₂ : String) (ivHex ctHex : List Char)
    (h : mkTag key₁ ivHex ctHex = mkTag key₂ ivHex ctHex) : key₁ = key₂ := by
  have h₁ := List.append_cancel_left h
  have h₂ := List.cons.inj h₁
  exact strToHex_inj _ _ h₂.2

theorem mem_mkTag_ne_colon (key : String) (ivHex ctHex : List Char)
    (hiv : ∀ c ∈ ivHex, c ≠ ':') (hct : ∀ c ∈ ctHex, c ≠ ':') :
    ∀ x ∈ mkTag key ivHex ctHex, x ≠ ':' := by
  intro x hx
  simp only [mkTag, List.mem_append, List.mem_cons] at hx
  rcases hx with (h | rfl | h) | rfl | h
  · exact hiv x h
  · decide
  · exact hct x h
  · decide
  · exact mem_strToHex_ne_colon key x h

/-- Model of `encryptData(data, userId, sessionToken)` from the database backend: the
record string `ivHex + ":" + ciphertextHex + ":" + authTagHex`.  The random
`crypto.randomBytes(16)` iv is passed explicitly. -/
def encryptData (iv : Nat) (data : HostConfigPlain) (userId sessionToken : String) : String :=
  let key := getEncryptionKey userId sessionToken
  let ivHex := ivHexOf iv
  let ctHex := strToHex (jsonStringify data)
  String.mk (ivHex ++ ':' :: ctHex ++ ':' :: mkTag key ivHex ctHex)

/-- Model of `decryptData(encryptedData, userId, sessionToken)` from the database
backend: split on `:` (the destructuring takes the first three components),
authenticate, decrypt, parse.  Any failure — wrong tag, broken structure,
unparseable plaintext — is caught and becomes `none` (JavaScript `null`). -/
def decryptData (encryptedData : String) (userId sessionToken : String) : Option HostConfigPlain :=
  match splitOnChar ':' encryptedData.data with
  | ivHex :: contentHex :: authTagHex :: _ =>
    if authTagHex = mkTag (getEncryptionKey userId sessionToken) ivHex contentHex then
      match hexToChars contentHex with
      | some chars => jsonParse (String.mk chars)
      | none => none
    else none
  | _ => none

/-- The record produced by `encryptData` splits on `:` into exactly its three
components. -/
theorem encryptData_split (iv : Nat) (data : HostConfigPlain) (userId sessionToken : String) :
    splitOnChar ':' (encryptData iv data userId sessionToken).data =
      [ivHexOf iv, strToHex (jsonStringify data),
       mkTag (getEncryptionKey userId sessionToken) (ivHexOf iv) (strToHex (jsonStringify data))] := by
  have hiv := mem_ivHexOf_ne_colon iv
  have hct := mem_strToHex_ne_colon (jsonStringify data)
  have htag := mem_mkTag_ne_colon (getEncryptionKey userId sessionToken) (ivHexOf iv)
    (strToHex (jsonStringify data)) hiv hct
  show splitOnChar ':' (ivHexOf iv ++ ':' :: (strToHex (jsonStringify data) ++ ':' :: _)) = _
  rw [splitOnChar_append ':' _ _ hiv, splitOnChar_append ':' _ _ hct,
    splitOnChar_of_not_mem ':' _ htag]

/-- Round trip of the codec under the same derivation input. -/
theorem decryptData_encryptData (iv : Nat) (data : HostConfigPlain) (userId sessionToken : String) :
    decryptData (encryptData iv data userId sessionToken) userId sessionToken = some data := by
  rw [decryptData, encryptData_split]
  simp only [hexToChars_strToHex]
  exact jsonParse_jsonStringify data

/-- Fail-closed under a different derived key. -/
theorem decryptData_encryptData_ne (iv : Nat) (data : HostConfigPlain)
    (u₁ t₁ u₂ t₂ : String) (hk : getEncryptionKey u₁ t₁ ≠ getEncryptionKey u₂ t₂) :
    decryptData (encryptData iv data u₁ t₁) u₂ t₂ = none := by
  rw [decryptData, encryptData_split]
  have hne : mkTag (getEncryptionKey u₁ t₁) (ivHexOf iv) (strToHex (jsonStringify data)) ≠
      mkTag (getEncryptionKey u₂ t₂) (ivHexOf iv) (strToHex (jsonStringify data)) :=
    fun h => hk (mkTag_inj_key _ _ _ _ h)
  simp [hne]

/-! ### The Credential Store (database backend socket handlers)

`saveHostConfig` and `getHosts` from the database backend, over an explicit
in-memory state standing for the two Mongo collections.  `User.create` /
`Host.create` append; `findOne` is the first match in insertion order. -/

structure UserRec where
  id : String
  username : String
  password : String
  sessionToken : String
deriving DecidableEq, Repr

structure HostRec where
  name : String
  config : String
  users : List String
  createdBy : String
  folder : Option String
deriving DecidableEq, Repr

structure DbState where
  users : List UserRec
  hosts : List HostRec
deriving DecidableEq, Repr

/-- The `hostConfig` object a client sends to `saveHostConfig`; absent
JavaScript fields are `none`. -/
structure HostConfigIn where
  name : Option String
  folder : Option String
  ip : Option String
  user : Option String
  port : Option Nat
  password : Option String
  rsaKey : Option String
deriving DecidableEq, Repr

inductive SaveResp
  | error (msg : String)
  | success
deriving DecidableEq, Repr

/-- JavaScript truthiness of an optional string (`undefined` and `""` are
falsy). -/
def jsFalsyStr (o : Option String) : Bool :=
  match o with
  | none => true
  | some s => s = ""

/-- JavaScript truthiness of an optional number (`undefined` and `0` are
falsy). -/
def jsFalsyNat (o : Option Nat) : Bool :=
  match o with
  | none => true
  | some n => n = 0

/-- JavaScript `String.prototype.trim`, implemented on the character list so
that it evaluates by reduction. -/
def jsTrim (s : String) : String :=
  String.mk (((s.data.dropWhile Char.isWhitespace).reverse.dropWhile Char.isWhitespace).reverse)

/-- JavaScript `x?.trim() || undefined`: trim, and collapse an empty result to absent. -/
def jsTrimOrUndef (o : Option String) : Option String :=
  match o.map jsTrim with
  | some "" => none
  | x => x

/-- Mongo lookup `User.findOne` on `_id` and `sessionToken`. -/
def findUser (st : DbState) (userId sessionToken : String) : Option UserRec :=
  st.users.find? (fun u => u.id = userId && u.sessionToken = sessionToken)

/-- The `cleanConfig` object `saveHostConfig` builds and encrypts. -/
def cleanConfigOf (hc : HostConfigIn) : HostConfigPlain :=
  { name := hc.name.map jsTrim
    folder := jsTrimOrUndef hc.folder
    ip := jsTrim (hc.ip.getD "")
    user := jsTrim (hc.user.getD "")
    port := match hc.port with
      | none => 22
      | some 0 => 22
      | some p => p
    password := jsTrimOrUndef hc.password
    rsaKey := jsTrimOrUndef hc.rsaKey }

/-- The handler's `finalName = cleanConfig.name || cleanConfig.ip`. -/
def finalNameOf (hc : HostConfigIn) : String :=
  match (cleanConfigOf hc).name with
  | none => (cleanConfigOf hc).ip
  | some "" => (cleanConfigOf hc).ip
  | some s => s

/-- The `saveHostConfig` handler.  The random iv consumed by `encryptData` is
passed explicitly. -/
def saveHostConfig (st : DbState) (userId sessionToken : String)
    (hostConfig : Option HostConfigIn) (iv : Nat) : DbState × SaveResp :=
  if userId = "" ∨ sessionToken = "" then
    (st, .error "Authentication required")
  else
    match hostConfig with
    | none => (st, .error "Invalid host configuration")
    | some hc =>
      if jsFalsyStr hc.ip ∨ jsFalsyStr hc.user then
        (st, .error "IP and User are required")
      else
        match findUser st userId sessionToken with
        | none => (st, .error "Invalid session")
        | some _ =>
          let finalName := finalNameOf hc
          match st.hosts.find? (fun h => h.name = finalName && h.createdBy = userId) with
          | some _ => (st, .error "Host with this name already exists")
          | none =>
            let encryptedConfig := encryptData iv (cleanConfigOf hc) userId sessionToken
            ({ st with hosts := st.hosts ++
                [{ name := finalName, config := encryptedConfig, users := [userId],
                   createdBy := userId, folder := (cleanConfigOf hc).folder }] },
             .success)

inductive GetResp
  | error (msg : String)
  | success (hosts : List (HostRec × Option HostConfigPlain))
deriving DecidableEq, Repr

/-- The `getHosts` handler: find the hosts listing the user, decrypt each
config, and keep only the entries whose decryption succeeded. -/
def getHosts (st : DbState) (userId sessionToken : String) : GetResp :=
  match findUser st userId sessionToken with
  | none => .error "Invalid session"
  | some _ =>
    let hosts := st.hosts.filter (fun h => h.users.contains userId)
    let decryptedHosts :=
      (hosts.map (fun h => (h, decryptData h.config userId sessionToken))).filter
        (fun p => p.2.isSome)
    .success decryptedHosts

/-! ### The SSH session relay (`src/backend/ssh.cjs`)

One connected client socket owns mutable `stream` and `conn` references; the
handlers below are the socket event handlers.  Remote-side and client-side
effects are recorded as an ordered action list. -/

/-- Observable effects of one handler invocation, in program order.  `emit…`
constructors are messages to the client (the wire protocol of the spec);
the rest act on the SSH client or its shell stream. -/
inductive RelayAction
  | emitError (msg : String)
  | emitData (s : String)
  | emitResize (cols rows : Nat)
  | emitPing
  | emitDisconnected (msg : String)
  | connEnd (id : Nat)
  | connCreate (id : Nat)
  | connConnect (id : Nat)
  | setWindow (rows cols height width : Nat)
  | execStty (cols rows : Nat) (ok : Bool)
  | streamEnd (id : Nat)
  | streamWrite (s : String)
deriving DecidableEq, Repr

/-- Is this action a message emitted to the client? -/
def RelayAction.isClientMsg : RelayAction → Bool
  | .emitError _ => true
  | .emitData _ => true
  | .emitResize _ _ => true
  | .emitPing => true
  | .emitDisconnected _ => true
  | _ => false

/-- Messages to the client contained in an action trace, in order. -/
def clientMsgs (acts : List RelayAction) : List RelayAction :=
  acts.filter RelayAction.isClientMsg

/-- Per-socket relay state: the `stream` and `conn` references (identifiers of
the live shell channel and SSH client, `none` for JavaScript `null`) and a
fresh-identifier counter for `new SSHClient()`. -/
structure RelayState where
  stream : Option Nat
  conn : Option Nat
  nextId : Nat
deriving DecidableEq, Repr

/-- The `hostConfig` argument of `connectToHost`. -/
structure SshHostConfig where
  ip : Option String
  user : Option String
  port : Option Nat
  password : Option String
  sshKey : Option String
  sshAlgorithm : Option String
deriving DecidableEq, Repr

/-- The `connectToHost` handler, up to and including `conn.connect(...)` (the
asynchronous `ready` / `error` / `close` events are separate transitions). -/
def connectToHost (st : RelayState) (cols rows : Nat) (hostConfig : Option SshHostConfig) :
    RelayState × List RelayAction :=
  match hostConfig with
  | none => (st, [.emitError "Missing required connection details (IP, user, or port)"])
  | some hc =>
    if jsFalsyStr hc.ip ∨ jsFalsyStr hc.user ∨ jsFalsyNat hc.port then
      (st, [.emitError "Missing required connection details (IP, user, or port)"])
    else if jsFalsyStr hc.password ∧ jsFalsyStr hc.sshKey then
      (st, [.emitError "Authentication required"])
    else
      let teardown : List RelayAction :=
        match st.conn with
        | some c => [.connEnd c]
        | none => []
      let newId := st.nextId
      ({ stream := none, conn := some newId, nextId := st.nextId + 1 },
       teardown ++ [.connCreate newId, .connConnect newId])

/-- The `resize` handler registered while a shell is open.  `execOk` is the
outcome of the fire-and-forget `conn.exec("stty …")` call; the handler's
callback for it is empty, so the outcome influences nothing. -/
def resizeHandler (st : RelayState) (cols rows : Nat) (execOk : Bool) :
    RelayState × List RelayAction :=
  match st.stream with
  | none => (st, [])
  | some _ =>
    let sttyActs : List RelayAction :=
      match st.conn with
      | some _ => [.execStty cols rows execOk]
      | none => []
    (st, .setWindow rows cols rows cols :: sttyActs ++ [.emitResize cols rows])

/-- The shell stream `close` handler: end the stream and the connection and
clear both references.  It emits nothing to the client. -/
def streamCloseHandler (st : RelayState) : RelayState × List RelayAction :=
  let acts :=
    (match st.stream with
     | some s => [RelayAction.streamEnd s]
     | none => []) ++
    (match st.conn with
     | some c => [RelayAction.connEnd c]
     | none => [])
  ({ st with stream := none, conn := none }, acts)

/-- The SSH connection `error` handler: emit the error to the client, then
tear down the stream and the connection and clear both references. -/
def connErrorHandler (st : RelayState) (msg : String) : RelayState × List RelayAction :=
  let tail :=
    (match st.stream with
     | some s => [RelayAction.streamEnd s]
     | none => []) ++
    (match st.conn with
     | some c => [RelayAction.connEnd c]
     | none => [])
  ({ st with stream := none, conn := none }, .emitError msg :: tail)

/-- The client `data` handler: push the payload onto the outgoing queue (a
flush is scheduled via `setImmediate` when the queue was empty). -/
def onClientData (outgoingBuffer : List String) (data : String) : List String :=
  outgoingBuffer ++ [data]

/-- The flush `processOutgoingBuffer`: with a live stream and a non-empty queue, join the
whole queue into one string, clear the queue, and issue a single
`stream.write`. -/
def processOutgoingBuffer (hasStream : Bool) (outgoingBuffer : List String) :
    List RelayAction × List String :=
  if outgoingBuffer = [] ∨ hasStream = false then ([], outgoingBuffer)
  else ([.streamWrite (String.join outgoingBuffer)], [])

/-! ### Shared concrete fixtures -/

/-- A sample plaintext auth descriptor. -/
def samplePlain : HostConfigPlain :=
  { name := none, folder := none, ip := "10.0.0.5", user := "alice", port := 22,
    password := some "x", rsaKey := none }

/-- Changing the derivation input without changing the derived key cannot
change the record `encryptData` produces. -/
theorem encryptData_congr_key (iv : Nat) (data : HostConfigPlain) (u₁ t₁ u₂ t₂ : String)
    (h : getEncryptionKey u₁ t₁ = getEncryptionKey u₂ t₂) :
    encryptData iv data u₁ t₁ = encryptData iv data u₂ t₂ := by
  simp [encryptData, h]

/-- C1: for every serializable plaintext payload, every iv and every
derivation input, decrypting the record produced by `encryptData` with the
same derivation input returns exactly the payload. -/
theorem c1_decrypt_encrypt_roundtrip (iv : Nat) (P : HostConfigPlain)
    (userId sessionToken : String) :
    decryptData (encryptData iv P userId sessionToken) userId sessionToken = some P :=
  decryptData_encryptData iv P userId sessionToken

/-- C2 (amended): decrypting a record produced under one derivation input with
a second derivation input that derives a different key yields the typed
failure `none`, never a plaintext value. -/
theorem c2_decrypt_wrong_key (iv : Nat) (P : HostConfigPlain) (u₁ t₁ u₂ t₂ : String)
    (hk : getEncryptionKey u₁ t₁ ≠ getEncryptionKey u₂ t₂) :
    decryptData (encryptData iv P u₁ t₁) u₂ t₂ = none :=
  decryptData_encryptData_ne iv P u₁ t₁ u₂ t₂ hk

/-- Witness for C2 at a concrete pair of derivation inputs with distinct
derived keys. -/
theorem c2_decrypt_wrong_key_witness :
    getEncryptionKey "alice" "tok1" ≠ getEncryptionKey "alice" "tok2" ∧
    decryptData (encryptData 0 samplePlain "alice" "tok1") "alice" "tok2" = none :=
  ⟨by decide, c2_decrypt_wrong_key 0 samplePlain "alice" "tok1" "alice" "tok2" (by decide)⟩

/-- C2 as stated is false: the derivation inputs `("a", "b-c")` and
`("a-b", "c")` are distinct, yet the key-derivation string
`userId + "-" + sessionToken` coincides, so decryption under the second input
succeeds and returns the plaintext. -/
theorem c2_counterexample :
    (("a", "b-c") : String × String) ≠ ("a-b", "c") ∧
    decryptData (encryptData 0 samplePlain "a" "b-c") "a-b" "c" = some samplePlain := by
  refine ⟨by decide, ?_⟩
  rw [encryptData_congr_key 0 samplePlain "a" "b-c" "a-b" "c" (by decide)]
  exact decryptData_encryptData 0 samplePlain "a-b" "c"

/-- C3 (amended): `saveHostConfig` rejects a second store request whose
`(owner, finalName)` pair duplicates an existing record under an exact
(case-sensitive) name comparison, returning the already-exists error and
leaving the state unchanged. -/
theorem c3_save_rejects_duplicate (st : DbState) (userId sessionToken : String)
    (hc : HostConfigIn) (iv : Nat)
    (hu : userId ≠ "") (ht : sessionToken ≠ "")
    (hip : jsFalsyStr hc.ip = false) (husr : jsFalsyStr hc.user = false)
    (hsess : (findUser st userId sessionToken).isSome = true)
    (hdup : ∃ h ∈ st.hosts, h.name = finalNameOf hc ∧ h.createdBy = userId) :
    saveHostConfig st userId sessionToken (some hc) iv =
      (st, .error "Host with this name already exists") := by
  obtain ⟨u, husr'⟩ := Option.isSome_iff_exists.mp hsess
  obtain ⟨hrec, hmem, hname, hby⟩ := hdup
  have hfind : (st.hosts.find? (fun h => h.name = finalNameOf hc && h.createdBy = userId)).isSome := by
    rw [List.find?_isSome]
    exact ⟨hrec, hmem, by simp [hname, hby]⟩
  obtain ⟨hrec', hfind'⟩ := Option.isSome_iff_exists.mp hfind
  simp [saveHostConfig, hu, ht, hip, husr, husr', hfind']

/-- Witness for C3 at a concrete state holding a host named `prod-db` for the
owner, and a request that reuses exactly that name. -/
theorem c3_save_rejects_duplicate_witness :
    (let st : DbState :=
      { users := [{ id := "u1", username := "alice", password := "h", sessionToken := "t1" }],
        hosts := [{ name := "prod-db", config := "cfg", users := ["u1"], createdBy := "u1",
                    folder := none }] }
     let hc : HostConfigIn :=
      { name := some "prod-db", folder := none, ip := some "1.2.3.4", user := some "root",
        port := none, password := some "pw", rsaKey := none }
     saveHostConfig st "u1" "t1" (some hc) 0 =
       (st, .error "Host with this name already exists")) := by
  exact c3_save_rejects_duplicate _ "u1" "t1" _ 0 (by decide) (by decide) (by decide) (by decide)
    (by decide) (by decide)

/-- C3 as stated is false: with a stored host named `Prod`, a second store
request named `prod` (same letters, different case) by the same owner is not
rejected — it succeeds and persists a second record. -/
theorem c3_counterexample :
    (let st : DbState :=
      { users := [{ id := "u1", username := "alice", password := "h", sessionToken := "t1" }],
        hosts := [{ name := "Prod", config := "cfg", users := ["u1"], createdBy := "u1",
                    folder := none }] }
     let hc : HostConfigIn :=
      { name := some "prod", folder := none, ip := some "1.2.3.4", user := some "root",
        port := none, password := some "pw", rsaKey := none }
     (saveHostConfig st "u1" "t1" (some hc) 0).2 = SaveResp.success ∧
       (saveHostConfig st "u1" "t1" (some hc) 0).1.hosts.length = 2) := by
  constructor
  · rfl
  · rfl

/-- C4: with a valid session, `getHosts` returns a success whose entries are
exactly the owner's records that decrypt under the supplied derivation input;
records that fail to decrypt are omitted without failing the read. -/
theorem c4_getHosts_omits_undecryptable (st : DbState) (userId sessionToken : String)
    (hsess : (findUser st userId sessionToken).isSome = true) :
    ∃ l, getHosts st userId sessionToken = .success l ∧
      ∀ h oc, ((h, oc) ∈ l ↔ h ∈ st.hosts ∧ h.users.contains userId = true ∧
        decryptData h.config userId sessionToken = oc ∧ oc.isSome = true) := by
  obtain ⟨u, hu⟩ := Option.isSome_iff_exists.mp hsess
  simp only [getHosts, hu]
  refine ⟨_, rfl, ?_⟩
  intro h oc
  constructor
  · intro hmem
    have h1 := (List.mem_filter.mp hmem).2
    have h2 := (List.mem_filter.mp hmem).1
    obtain ⟨h', hh', heq⟩ := List.mem_map.mp h2
    obtain ⟨hh'm, hh'own⟩ := List.mem_filter.mp hh'
    obtain ⟨rfl, rfl⟩ := Prod.mk.inj heq
    exact ⟨hh'm, hh'own, rfl, h1⟩
  · rintro ⟨hmem, hown, hdec, hsome⟩
    refine List.mem_filter.mpr ⟨List.mem_map.mpr ⟨h, List.mem_filter.mpr ⟨hmem, hown⟩, ?_⟩, hsome⟩
    rw [hdec]

/-- Witness for C4: one record encrypted under the live token `T2` and one
under a stale token `T1`; the session is valid for `T2`. -/
theorem c4_getHosts_witness :
    (let st : DbState :=
      { users := [{ id := "u1", username := "alice", password := "h", sessionToken := "T2" }],
        hosts := [{ name := "prod-db", config := encryptData 0 samplePlain "u1" "T2",
                    users := ["u1"], createdBy := "u1", folder := none },
                  { name := "old", config := encryptData 1 samplePlain "u1" "T1",
                    users := ["u1"], createdBy := "u1", folder := none }] }
     (findUser st "u1" "T2").isSome = true ∧
       ∃ l, getHosts st "u1" "T2" = .success l ∧
         ∀ h oc, ((h, oc) ∈ l ↔ h ∈ st.hosts ∧ h.users.contains "u1" = true ∧
           decryptData h.config "u1" "T2" = oc ∧ oc.isSome = true)) :=
  ⟨by decide, c4_getHosts_omits_undecryptable _ "u1" "T2" (by decide)⟩

/-- A `connectToHost` request the handler rejects synchronously: a missing
config object, a falsy ip/user/port, or neither a password nor a key. -/
def invalidSshConfig (hostConfig : Option SshHostConfig) : Bool :=
  match hostConfig with
  | none => true
  | some hc =>
    jsFalsyStr hc.ip || jsFalsyStr hc.user || jsFalsyNat hc.port ||
      (jsFalsyStr hc.password && jsFalsyStr hc.sshKey)

/-- C5: an invalid `connectToHost` request produces exactly one emitted
message, an error, and nothing else: no SSH client is created or connected
and the relay state is unchanged. -/
theorem c5_invalid_connect_rejected (st : RelayState) (cols rows : Nat)
    (hostConfig : Option SshHostConfig) (hbad : invalidSshConfig hostConfig = true) :
    (connectToHost st cols rows hostConfig).1 = st ∧
      ∃ m, (connectToHost st cols rows hostConfig).2 = [.emitError m] := by
  match hostConfig with
  | none => exact ⟨rfl, _, rfl⟩
  | some hc =>
    simp only [invalidSshConfig, Bool.or_eq_true, Bool.and_eq_true] at hbad
    by_cases h1 : jsFalsyStr hc.ip ∨ jsFalsyStr hc.user ∨ jsFalsyNat hc.port
    · simp [connectToHost, h1]
    · have h2 : jsFalsyStr hc.password ∧ jsFalsyStr hc.sshKey := by
        rcases hbad with ((h | h) | h) | h
        · exact absurd (Or.inl h) h1
        · exact absurd (Or.inr (Or.inl h)) h1
        · exact absurd (Or.inr (Or.inr h)) h1
        · exact h
      simp [connectToHost, h1, h2.1, h2.2]

/-- Witness for C5: the spec scenario of a connect request carrying neither a
password nor a key. -/
theorem c5_invalid_connect_rejected_witness :
    (let hc : SshHostConfig :=
      { ip := some "10.0.0.5", user := some "alice", port := some 22, password := none,
        sshKey := none, sshAlgorithm := none }
     invalidSshConfig (some hc) = true ∧
       ((connectToHost ⟨none, none, 0⟩ 80 24 (some hc)).1 = ⟨none, none, 0⟩ ∧
         ∃ m, (connectToHost ⟨none, none, 0⟩ 80 24 (some hc)).2 = [.emitError m])) :=
  ⟨by decide, c5_invalid_connect_rejected ⟨none, none, 0⟩ 80 24 _ (by decide)⟩

/-- C6: a valid connect request arriving while a connection exists first ends
the existing connection and clears the channel reference, and only then
creates and connects the new SSH client. -/
theorem c6_reconnect_tears_down_first (st : RelayState) (cols rows : Nat)
    (hc : SshHostConfig) (c : Nat) (hconn : st.conn = some c)
    (hvalid : invalidSshConfig (some hc) = false) :
    connectToHost st cols rows (some hc) =
      ({ stream := none, conn := some st.nextId, nextId := st.nextId + 1 },
       [.connEnd c, .connCreate st.nextId, .connConnect st.nextId]) := by
  simp only [invalidSshConfig, Bool.or_eq_false_iff, Bool.and_eq_false_iff] at hvalid
  obtain ⟨⟨⟨hip, husr⟩, hport⟩, hauth⟩ := hvalid
  simp only [connectToHost, hip, husr, hport, Bool.false_eq_true, or_self, if_false]
  rcases hauth with h | h <;> simp [h, hconn]

/-- Witness for C6 at a concrete state with a live connection. -/
theorem c6_reconnect_tears_down_first_witness :
    (let hc : SshHostConfig :=
      { ip := some "10.0.0.5", user := some "alice", port := some 22, password := some "x",
        sshKey := none, sshAlgorithm := none }
     (⟨some 3, some 7, 8⟩ : RelayState).conn = some 7 ∧ invalidSshConfig (some hc) = false ∧
       connectToHost ⟨some 3, some 7, 8⟩ 80 24 (some hc) =
         ({ stream := none, conn := some 8, nextId := 9 },
          [.connEnd 7, .connCreate 8, .connConnect 8])) :=
  ⟨rfl, by decide, c6_reconnect_tears_down_first ⟨some 3, some 7, 8⟩ 80 24 _ 7 rfl (by decide)⟩

theorem onClientData_foldl (ps a : List String) :
    ps.foldl onClientData a = a ++ ps := by
  induction ps generalizing a with
  | nil => simp
  | cons p rest ih => simp [onClientData, ih, List.append_assoc]

/-- C7: queueing any non-empty sequence of client `data` payloads and then
flushing produces exactly one write to the remote channel, whose content is
the concatenation of the payloads in arrival order, and drains the queue
completely. -/
theorem c7_flush_coalesces_in_order (ps : List String) (hne : ps ≠ []) :
    processOutgoingBuffer true (ps.foldl onClientData []) =
      ([.streamWrite (String.join ps)], []) := by
  rw [onClientData_foldl]
  simp [processOutgoingBuffer, hne]

/-- Witness for C7 with the spec scenario of 50 queued payloads. -/
theorem c7_flush_coalesces_in_order_witness :
    (List.replicate 50 "x" : List String) ≠ [] ∧
      processOutgoingBuffer true ((List.replicate 50 "x").foldl onClientData []) =
        ([.streamWrite (String.join (List.replicate 50 "x"))], []) :=
  ⟨by decide, c7_flush_coalesces_in_order _ (by decide)⟩

/-- C8 (amended): with an open shell and connection, a resize request updates
the remote pseudo-terminal to exactly the requested geometry, issues the
shell-level `stty` directive, and then sends the client an acknowledgment
with the same cols and rows immediately, regardless of whether the directive
succeeded (its callback discards the outcome). -/
theorem c8_resize_applies_and_acks (st : RelayState) (cols rows : Nat) (execOk : Bool)
    (s c : Nat) (hs : st.stream = some s) (hc : st.conn = some c) :
    resizeHandler st cols rows execOk =
      (st, [.setWindow rows cols rows cols, .execStty cols rows execOk,
            .emitResize cols rows]) := by
  simp [resizeHandler, hs, hc]

/-- Witness for C8 at the spec geometry 120×40. -/
theorem c8_resize_applies_and_acks_witness :
    ((⟨some 0, some 0, 1⟩ : RelayState).stream = some 0 ∧
      (⟨some 0, some 0, 1⟩ : RelayState).conn = some 0) ∧
      resizeHandler ⟨some 0, some 0, 1⟩ 120 40 true =
        (⟨some 0, some 0, 1⟩, [.setWindow 40 120 40 120, .execStty 120 40 true,
          .emitResize 120 40]) :=
  ⟨⟨rfl, rfl⟩, c8_resize_applies_and_acks ⟨some 0, some 0, 1⟩ 120 40 true 0 0 rfl rfl⟩

/-- C8 as stated is false: with the `stty` directive failing (`execOk =
false`), the relay still sends the resize acknowledgment — the
acknowledgment is not gated on the directive's success. -/
theorem c8_counterexample :
    RelayAction.execStty 120 40 false ∈ (resizeHandler ⟨some 0, some 0, 1⟩ 120 40 false).2 ∧
      RelayAction.emitResize 120 40 ∈ (resizeHandler ⟨some 0, some 0, 1⟩ 120 40 false).2 := by
  decide

/-- C9 (amended): a remote connection error produces exactly one terminal
message to the client (the error) before teardown, while a remote channel
close tears the session down without emitting any message — in particular no
`disconnected` message is ever sent. -/
theorem c9_terminal_messages (st : RelayState) (msg : String) :
    clientMsgs (connErrorHandler st msg).2 = [.emitError msg] ∧
      clientMsgs (streamCloseHandler st).2 = [] := by
  cases hs : st.stream <;> cases hc : st.conn <;>
    simp [connErrorHandler, streamCloseHandler, clientMsgs, hs, hc, RelayAction.isClientMsg]

/-- C9 as stated is false: a session in `Streaming` whose remote channel
closes reaches the closed state with zero terminal messages sent to the
client, not exactly one. -/
theorem c9_counterexample :
    (clientMsgs (streamCloseHandler ⟨some 0, some 1, 2⟩).2).length = 0 ∧
      (streamCloseHandler ⟨some 0, some 1, 2⟩).1.stream = none ∧
      (streamCloseHandler ⟨some 0, some 1, 2⟩).1.conn = none := by
  decide

/-- C10: a resize request received while no shell channel is open performs no
action at all: no effect on the remote side, no message to the client, and no
state change. -/
theorem c10_resize_without_stream_noop (st : RelayState) (cols rows : Nat) (execOk : Bool)
    (h : st.stream = none) : resizeHandler st cols rows execOk = (st, []) := by
  simp [resizeHandler, h]

/-- Witness for C10 at a concrete idle state. -/
theorem c10_resize_without_stream_noop_witness :
    (⟨none, some 4, 5⟩ : RelayState).stream = none ∧
      resizeHandler ⟨none, some 4, 5⟩ 120 40 true = (⟨none, some 4, 5⟩, []) :=
  ⟨rfl, c10_resize_without_stream_noop ⟨none, some 4, 5⟩ 120 40 true rfl⟩
